import Mathlib

/-!
Shallow embedding of the textual codec in `src/string_serialization.cpp`
(class `string_serializer` and class `string_deserializer`), together with
the marshal facade drive for a single primitive-valued object.

Strings are modelled as `List Char`; positions (`std::string::iterator`)
as `Nat` indices.  Reading at the index `length` returns the null
character, modelling the null terminator of the `std::string` buffer that
the scanning loops of the C++ code rely on when they reach the end of the
input.  Fallible operations return `Except ParseErr`, one constructor per
`throw` site of the source.
-/

/-- Tags of the primitive wire types the claims exercise
(`primitive_type` in the source, restricted to the string encodings). -/
inductive primitive_type
  | pt_u8string
  | pt_u16string
  | pt_u32string
deriving DecidableEq

/-- The tagged union of primitive values (`primitive_variant`) for the
string encodings; the u16/u32 payloads are kept abstractly as `List Char`. -/
inductive primitive_variant
  | pv_u8 (s : List Char)
  | pv_u16 (s : List Char)
  | pv_u32 (s : List Char)
deriving DecidableEq

/-- One constructor per `throw_malformed` / `throw std::logic_error` site of
`string_deserializer`. -/
inductive ParseErr
  | expected_found (expected found : Char)
  | missing_begin_object
  | expected_left_parenthesis
  | could_not_seek_object_name
  | expected_end_of_string
  | unterminated_value
  | string_expected_quote (found : Char)
deriving DecidableEq

/-- The null character: what dereferencing the position one past the last
character of a null-terminated `std::string` buffer yields. -/
def nul : Char := Char.ofNat 0

/-- Character at index `p`, with the null terminator at or past the end. -/
def charAt (s : List Char) (p : Nat) : Char := (s.drop p).headD nul

/-- The slice `[b, e)` of `s` (`std::string(first, last)`). -/
def substrOf (s : List Char) (b e : Nat) : List Char := (s.drop b).take (e - b)

/-- Separator characters skipped by `skip_space_and_comma`. -/
def isSep (c : Char) : Bool := c == ' ' || c == ','

/-- The delimiter set of `string_deserializer::next_delimiter`. -/
def isDelim (c : Char) : Bool :=
  c == '(' || c == ')' || c == '{' || c == '}' || c == ' ' || c == ','

/-- The delimiter set of the local `find_if_cond` in `read_value`. -/
def isValueDelim (c : Char) : Bool := c == ')' || c == '}' || c == ' ' || c == ','

/-- Number of leading separators of `l`; the empty case models the loop of
`skip_space_and_comma` stopping on the null terminator at end of input. -/
def seekSkip : List Char → Nat
  | [] => 0
  | c :: t => if isSep c then seekSkip t + 1 else 0

/-- `string_deserializer::skip_space_and_comma`, as a pure function from the
input and the cursor to the new cursor. -/
def skip_space_and_comma (s : List Char) (p : Nat) : Nat := p + seekSkip (s.drop p)

/-- Instrumentation of the loop of `skip_space_and_comma` starting on the
suffix `l`: the cursor positions (relative base `p`) at which the loop
dereferences `*m_pos`, including the final dereference that stops it.
When the suffix is exhausted the loop still reads once, at the slot one
past the last input character. -/
def skipReadsAux : List Char → Nat → List Nat
  | [], p => [p]
  | c :: t, p => if isSep c then p :: skipReadsAux t (p + 1) else [p]

/-- All positions of the input dereferenced by `skip_space_and_comma s p`. -/
def skipReadPositions (s : List Char) (p : Nat) : List Nat :=
  skipReadsAux (s.drop p) p

/-- `std::find_if(first, last, pred)` on the suffix `l`: index of the first
element satisfying `pred`, or `l.length` when there is none (the `end()`
iterator). -/
def find_if_idx (pred : Char → Bool) : List Char → Nat
  | [] => 0
  | c :: t => if pred c then 0 else find_if_idx pred t + 1

/-- The stateful scan of `read_value` for the closing quote
(`find_if_str_cond`): offset of the first `"` whose preceding character
(tracked in `last`) is not a backslash, or `l.length` when none exists.
`last` is the captured `last_char`, updated only when the predicate fails,
exactly as in the source. -/
def scanQuote : List Char → Char → Nat
  | [], _ => 0
  | c :: t, last => if c = '"' ∧ last ≠ '\\' then 0 else scanQuote t c + 1

/-- The stateful scan of the unescaping pass of `read_value` (local `cond`):
offset of the first `"` whose preceding character is a backslash. -/
def scanUnescOff : List Char → Char → Nat
  | [], _ => 0
  | c :: t, last => if c = '"' ∧ last = '\\' then 0 else scanUnescOff t c + 1

/-- Whether the last character of a string is a backslash — the shape of
string payload on which the writer's escaping and the reader's
closing-quote scan disagree. -/
def endsWithBackslash : List Char → Bool
  | [] => false
  | [c] => c == '\\'
  | _ :: t => endsWithBackslash t

namespace string_serializer

/-- Writer state: the accumulated output stream and the three data members
of `string_serializer`. -/
structure SerState where
  out : List Char
  m_open_objects : Nat
  m_after_value : Bool
  m_obj_just_opened : Bool
deriving DecidableEq

/-- A fresh `string_serializer` over an empty output stream. -/
def initSer : SerState := ⟨[], 0, false, false⟩

/-- `string_serializer::clear`. -/
def clear (st : SerState) : SerState :=
  if st.m_after_value then
    { st with out := st.out ++ [',', ' '], m_after_value := false }
  else if st.m_obj_just_opened then
    { st with out := st.out ++ [' ', '(', ' '], m_obj_just_opened := false }
  else st

/-- `string_serializer::begin_object`. -/
def begin_object (type_name : List Char) (st : SerState) : SerState :=
  let st1 := clear st
  { st1 with
    m_open_objects := st1.m_open_objects + 1
    out := st1.out ++ type_name
    m_obj_just_opened := true }

/-- `string_serializer::end_object`. -/
def end_object (st : SerState) : SerState :=
  if st.m_obj_just_opened then
    { st with m_obj_just_opened := false, m_after_value := true }
  else
    { st with
      out := st.out ++ (if st.m_after_value then [' ', ')'] else [')'])
      m_after_value := true }

/-- `string_serializer::begin_sequence`; the declared count is ignored. -/
def begin_sequence (_count : Nat) (st : SerState) : SerState :=
  let st1 := clear st
  { st1 with out := st1.out ++ ['{', ' '] }

/-- `string_serializer::end_sequence`. -/
def end_sequence (st : SerState) : SerState :=
  { st with out := st.out ++ (if st.m_after_value then [' ', '}'] else ['}']) }

/-- One character of the quoted-string rendering of `pt_writer`: a double
quote is written as backslash-quote, every other character verbatim. -/
def escapeChar (c : Char) : List Char := if c = '"' then ['\\', '"'] else [c]

/-- The body the string case of `pt_writer` writes between the quotes. -/
def escapeString (s : List Char) : List Char := (s.map escapeChar).flatten

/-- `string_serializer::pt_writer`: text of one primitive value.  A
`std::string` is quoted with embedded quotes escaped; the `u16string` and
`u32string` overloads emit nothing. -/
def pt_writer : primitive_variant → List Char
  | .pv_u8 s => '"' :: escapeString s ++ ['"']
  | .pv_u16 _ => []
  | .pv_u32 _ => []

/-- `string_serializer::write_value`. -/
def write_value (v : primitive_variant) (st : SerState) : SerState :=
  let st1 := clear st
  { st1 with out := st1.out ++ pt_writer v, m_after_value := true }

/-- `string_serializer::write_tuple` over the value array `vs`
(`size` is `vs.length`). -/
def write_tuple (vs : List primitive_variant) (st : SerState) : SerState :=
  let st1 := clear st
  let st2 := { st1 with out := st1.out ++ [' ', '{'] }
  let st3 := vs.foldl (fun a v => write_value v a) st2
  { st3 with out := st3.out ++ (if st3.m_after_value then [' ', '}'] else ['}']) }

/-- The equivalent sequence bracket the spec compares `write_tuple` with:
`begin_sequence(n)`, one `write_value` per element, `end_sequence()`. -/
def write_seq (vs : List primitive_variant) (st : SerState) : SerState :=
  end_sequence (vs.foldl (fun a v => write_value v a) (begin_sequence vs.length st))

/-- Comma-separated rendering of a run of primitive values, as produced by
consecutive `write_value` calls starting with no pending separator. -/
def rlist : List primitive_variant → List Char
  | [] => []
  | [v] => pt_writer v
  | v :: vs => pt_writer v ++ [',', ' '] ++ rlist vs

end string_serializer

namespace string_deserializer

/-- Reader state: the four data members of `string_deserializer`
(`m_str`, `m_pos`, `m_obj_count`, and the stack
`m_obj_had_left_parenthesis`, head = top). -/
structure DeserState where
  m_str : List Char
  m_pos : Nat
  m_obj_count : Nat
  m_stack : List Bool
deriving DecidableEq

/-- The constructor `string_deserializer(str)`. -/
def mkDeser (s : List Char) : DeserState := ⟨s, 0, 0, []⟩

/-- `string_deserializer::consume`. -/
def consume (c : Char) (st : DeserState) : Except ParseErr DeserState :=
  let p := skip_space_and_comma st.m_str st.m_pos
  if charAt st.m_str p = c then .ok { st with m_pos := p + 1 }
  else .error (.expected_found c (charAt st.m_str p))

/-- `string_deserializer::try_consume`; on failure the cursor keeps the
advance made by `skip_space_and_comma`. -/
def try_consume (c : Char) (st : DeserState) : Bool × DeserState :=
  let p := skip_space_and_comma st.m_str st.m_pos
  if charAt st.m_str p = c then (true, { st with m_pos := p + 1 })
  else (false, { st with m_pos := p })

/-- `string_deserializer::integrity_check`. -/
def integrity_check (st : DeserState) : Except ParseErr Unit :=
  match st.m_stack with
  | [] => .error .missing_begin_object
  | b :: _ => if b then .ok () else .error .expected_left_parenthesis

/-- `string_deserializer::seek_object`. -/
def seek_object (st : DeserState) : Except ParseErr (List Char × DeserState) :=
  let p := skip_space_and_comma st.m_str st.m_pos
  let e := p + find_if_idx isDelim (st.m_str.drop p)
  if p = e then .error .could_not_seek_object_name
  else .ok (substrOf st.m_str p e, { st with m_pos := e })

/-- `string_deserializer::peek_object`: seek, then move the cursor back by
the length of the returned name. -/
def peek_object (st : DeserState) : Except ParseErr (List Char × DeserState) :=
  match seek_object st with
  | .error e => .error e
  | .ok (r, st1) => .ok (r, { st1 with m_pos := st1.m_pos - r.length })

/-- `string_deserializer::begin_object`; the passed type name is unused by
the source. -/
def begin_object (_uname : List Char) (st : DeserState) : DeserState :=
  let st1 := { st with m_obj_count := st.m_obj_count + 1 }
  let st2 := { st1 with m_pos := skip_space_and_comma st1.m_str st1.m_pos }
  let pr := try_consume '(' st2
  { pr.2 with m_stack := pr.1 :: pr.2.m_stack }

/-- `string_deserializer::end_object`.  On `size_t`, `--m_obj_count == 0`
holds exactly when the counter was `1`, which is how the condition is
rendered here. -/
def end_object (st : DeserState) : Except ParseErr DeserState :=
  match st.m_stack with
  | [] => .error .missing_begin_object
  | b :: rest =>
    match (if b then consume ')' st else .ok st) with
    | .error e => .error e
    | .ok st1 =>
      let st2 := { st1 with m_stack := rest, m_obj_count := st1.m_obj_count - 1 }
      if st1.m_obj_count = 1 then
        let p := skip_space_and_comma st2.m_str st2.m_pos
        if p = st2.m_str.length then .ok { st2 with m_pos := p }
        else .error .expected_end_of_string
      else .ok st2

/-- `string_deserializer::begin_sequence`: `std::find` the next `}` and
count the commas before it, plus one. -/
def begin_sequence (st : DeserState) : Except ParseErr (Nat × DeserState) :=
  match integrity_check st with
  | .error e => .error e
  | .ok _ =>
    match consume '{' st with
    | .error e => .error e
    | .ok st1 =>
      let e := st1.m_pos + find_if_idx (fun c => c == '}') (st1.m_str.drop st1.m_pos)
      .ok ((substrOf st1.m_str st1.m_pos e).count ',' + 1, st1)

/-- `string_deserializer::end_sequence`. -/
def end_sequence (st : DeserState) : Except ParseErr DeserState := consume '}' st

/-- Default-constructed `primitive_variant(ptype)`. -/
def default_variant : primitive_type → primitive_variant
  | .pt_u8string => .pv_u8 []
  | .pt_u16string => .pv_u16 []
  | .pt_u32string => .pv_u32 []

/-- The `from_string` visitor applied to a default-constructed variant: a
`std::string` payload is assigned the extracted text, the `u16string` and
`u32string` overloads leave the payload untouched. -/
def apply_from_string (substr : List Char) : primitive_variant → primitive_variant
  | .pv_u8 _ => .pv_u8 substr
  | .pv_u16 s => .pv_u16 s
  | .pv_u32 s => .pv_u32 s

/-- The `for` loop of the unescaping pass of `read_value`, rewriting
`\"` to `"`.  `sb` is `sbegin`, `i` the resume position of the next
`std::find_if`, `last` the captured `last_char` carried across finds
(equal to `'\\'` right after a match, since the predicate does not update
it on success), `tmp` the accumulator.  Returns the final `(sbegin, tmp)`. -/
def unescape_loop (s : List Char) (sb i : Nat) (last : Char) (tmp : List Char) :
    Nat × List Char :=
  if i + scanUnescOff (s.drop i) last < s.length then
    unescape_loop s (i + scanUnescOff (s.drop i) last + 1)
      (i + scanUnescOff (s.drop i) last + 1) '\\'
      (tmp ++ substrOf s sb (i + scanUnescOff (s.drop i) last - 1) ++ ['"'])
  else (sb, tmp)
termination_by s.length - i
decreasing_by omega

/-- The whole unescaping pass of `read_value` on the extracted substring. -/
def unescape (substr : List Char) : List Char :=
  let r := unescape_loop substr 0 0 ' ' []
  let tmp := if r.1 ≠ 0 then r.2 ++ substrOf substr r.1 substr.length else r.2
  if tmp = [] then substr else tmp

/-- `string_deserializer::read_value`. -/
def read_value (ptype : primitive_type) (st : DeserState) :
    Except ParseErr (primitive_variant × DeserState) :=
  match integrity_check st with
  | .error e => .error e
  | .ok _ =>
    let p := skip_space_and_comma st.m_str st.m_pos
    let vbegin :=
      if ptype = primitive_type.pt_u8string ∧ charAt st.m_str p = '"' then p + 1 else p
    let vend :=
      if ptype = primitive_type.pt_u8string ∧ charAt st.m_str p = '"' then
        (p + 1) + scanQuote (st.m_str.drop (p + 1)) '"'
      else p + find_if_idx isValueDelim (st.m_str.drop p)
    if vend = st.m_str.length then .error .unterminated_value
    else
      let substr := substrOf st.m_str vbegin vend
      if ptype = primitive_type.pt_u8string then
        if charAt st.m_str vend = '"' then
          .ok (apply_from_string (unescape substr) (default_variant ptype),
               { st with m_pos := vend + 1 })
        else .error (.string_expected_quote (charAt st.m_str vend))
      else
        .ok (apply_from_string substr (default_variant ptype),
             { st with m_pos := vend })

end string_deserializer

open string_serializer string_deserializer

/-- Modelled from the spec: `render(value, descriptor)` for a primitive
value — the facade builds a fresh text writer and the descriptor's
`serialize` opens the named object, writes the one value, and closes it
(spec sections 4.4 and 4.6).  The descriptor implementations are not part
of the supplied sources. -/
def render_prim (type_name : List Char) (v : primitive_variant) : List Char :=
  (string_serializer.end_object
    (write_value v (string_serializer.begin_object type_name initSer))).out

/-- Modelled from the spec: `parse(text)` for a primitive-valued object —
the facade peeks the leading type name for the registry lookup, then the
descriptor's `deserialize` seeks the name, opens the object, reads the one
value with its tag, and closes it (spec sections 4.5 and 4.6).  The
descriptor implementations are not part of the supplied sources. -/
def parse_prim (ptype : primitive_type) (input : List Char) :
    Except ParseErr (List Char × primitive_variant) :=
  match peek_object (mkDeser input) with
  | .error e => .error e
  | .ok (uname, st) =>
    match seek_object st with
    | .error e => .error e
    | .ok (_, st1) =>
      let st2 := string_deserializer.begin_object uname st1
      match read_value ptype st2 with
      | .error e => .error e
      | .ok (v, st3) =>
        match string_deserializer.end_object st3 with
        | .error e => .error e
        | .ok _ => .ok (uname, v)

/-! ### Generic list helpers -/

theorem drop_len_append (a b : List Char) : (a ++ b).drop a.length = b := by
  induction a with
  | nil => simp
  | cons c t ih => simpa using ih

theorem drop_append_len (a b : List Char) (k : Nat) :
    (a ++ b).drop (a.length + k) = b.drop k := by
  induction a with
  | nil => simp
  | cons c t ih => simpa [Nat.succ_add] using ih

theorem take_append_len (a b : List Char) : (a ++ b).take a.length = a := by
  induction a with
  | nil => simp
  | cons c t ih => simpa using ih

theorem substrOf_append (a b : List Char) (k : Nat) :
    substrOf (a ++ b) a.length (a.length + k) = b.take k := by
  simp [substrOf, drop_len_append]

theorem substrOf_to_length (s : List Char) (j : Nat) :
    substrOf s j s.length = s.drop j := by
  simp [substrOf]

/-! ### Separator and delimiter facts -/

theorem isSep_of_isDelim (c : Char) (h : isDelim c = false) : isSep c = false := by
  simp only [isDelim, Bool.or_eq_false_iff] at h
  simp only [isSep, Bool.or_eq_false_iff]
  exact ⟨h.1.2, h.2⟩

theorem isSep_nul : isSep nul = false := by decide

theorem isDelim_nul : isDelim nul = false := by decide

/-! ### `seekSkip` / `skip_space_and_comma` facts -/

theorem seekSkip_le_length (l : List Char) : seekSkip l ≤ l.length := by
  induction l with
  | nil => simp [seekSkip]
  | cons c t ih =>
    cases h : isSep c with
    | true => simp only [seekSkip, h, if_true, List.length_cons]; omega
    | false => simp [seekSkip, h]

theorem seekSkip_stop (l : List Char) :
    isSep ((l.drop (seekSkip l)).headD nul) = false := by
  induction l with
  | nil => simpa [seekSkip] using isSep_nul
  | cons c t ih =>
    cases h : isSep c with
    | true => simpa [seekSkip, h] using ih
    | false => simpa [seekSkip, h] using h

theorem seekSkip_after (l : List Char) : seekSkip (l.drop (seekSkip l)) = 0 := by
  have h := seekSkip_stop l
  cases hd : l.drop (seekSkip l) with
  | nil => simp [seekSkip]
  | cons c t => rw [hd] at h; simp at h; simp [seekSkip, h]

theorem seekSkip_eq_length_iff (l : List Char) :
    seekSkip l = l.length ↔ l.all isSep = true := by
  induction l with
  | nil => simp [seekSkip]
  | cons c t ih =>
    cases h : isSep c with
    | true =>
      simp only [seekSkip, h, if_true, List.all_cons, Bool.true_and, List.length_cons, ← ih]
      omega
    | false =>
      have he : seekSkip (c :: t) = 0 := by simp [seekSkip, h]
      rw [he]
      simp only [List.all_cons, h, Bool.false_and, List.length_cons]
      constructor
      · intro h0; omega
      · intro h0; cases h0

theorem skip_drop (s : List Char) (p : Nat) :
    s.drop (skip_space_and_comma s p) = (s.drop p).drop (seekSkip (s.drop p)) := by
  simp [skip_space_and_comma, List.drop_drop, Nat.add_comm]

theorem skip_skip (s : List Char) (p : Nat) :
    skip_space_and_comma s (skip_space_and_comma s p) = skip_space_and_comma s p := by
  have h1 : seekSkip (s.drop (skip_space_and_comma s p)) = 0 := by
    rw [skip_drop]; exact seekSkip_after (s.drop p)
  show skip_space_and_comma s p + seekSkip (s.drop (skip_space_and_comma s p)) =
    skip_space_and_comma s p
  omega

theorem charAt_skip_not_sep (s : List Char) (p : Nat) :
    isSep (charAt s (skip_space_and_comma s p)) = false := by
  rw [charAt, skip_drop]
  exact seekSkip_stop (s.drop p)

theorem seekSkip_cons_not_sep (c : Char) (t : List Char) (h : isSep c = false) :
    seekSkip (c :: t) = 0 := by
  simp [seekSkip, h]

/-! ### `find_if_idx` facts -/

theorem find_if_idx_le_length (pred : Char → Bool) (l : List Char) :
    find_if_idx pred l ≤ l.length := by
  induction l with
  | nil => simp [find_if_idx]
  | cons c t ih =>
    cases h : pred c with
    | true => simp [find_if_idx, h]
    | false =>
      have he : find_if_idx pred (c :: t) = find_if_idx pred t + 1 := by
        simp [find_if_idx, h]
      simp only [List.length_cons]
      omega

theorem find_if_idx_append (pred : Char → Bool) (a b : List Char)
    (h : ∀ c ∈ a, pred c = false) :
    find_if_idx pred (a ++ b) = a.length + find_if_idx pred b := by
  induction a with
  | nil => simp
  | cons c t ih =>
    have hc : pred c = false := h c (by simp)
    have ht := ih (fun x hx => h x (by simp [hx]))
    have he : find_if_idx pred ((c :: t) ++ b) = find_if_idx pred (t ++ b) + 1 := by
      simp [find_if_idx, hc]
    simp only [List.length_cons]
    omega

theorem take_find_if_idx (pred : Char → Bool) (l : List Char) :
    l.take (find_if_idx pred l) = l.takeWhile (fun c => !pred c) := by
  induction l with
  | nil => simp [find_if_idx]
  | cons c t ih =>
    cases h : pred c with
    | true => simp [find_if_idx, h, List.takeWhile_cons]
    | false => simp [find_if_idx, h, List.takeWhile_cons, ih]

/-! ### Escaping and closing-quote scan facts -/

theorem escapeString_nil : string_serializer.escapeString [] = [] := by
  simp [string_serializer.escapeString]

theorem escapeString_cons (c : Char) (t : List Char) :
    string_serializer.escapeString (c :: t) =
      string_serializer.escapeChar c ++ string_serializer.escapeString t := by
  simp [string_serializer.escapeString]

theorem escapeString_append (a b : List Char) :
    string_serializer.escapeString (a ++ b) =
      string_serializer.escapeString a ++ string_serializer.escapeString b := by
  simp [string_serializer.escapeString]

theorem escapeChar_quote : string_serializer.escapeChar '"' = ['\\', '"'] := by decide

theorem escapeChar_other (c : Char) (h : c ≠ '"') :
    string_serializer.escapeChar c = [c] := by
  simp [string_serializer.escapeChar, h]

theorem escapeString_no_quote (a : List Char) (h : ∀ c ∈ a, c ≠ '"') :
    string_serializer.escapeString a = a := by
  induction a with
  | nil => exact escapeString_nil
  | cons c t ih =>
    rw [escapeString_cons, escapeChar_other c (h c (by simp)),
      ih (fun x hx => h x (by simp [hx]))]
    rfl

theorem endsWithBackslash_cons (c : Char) (t : List Char) (ht : t ≠ []) :
    endsWithBackslash (c :: t) = endsWithBackslash t := by
  cases t with
  | nil => exact absurd rfl ht
  | cons d u => rfl

theorem scanQuote_match (t : List Char) (last : Char) (h : last ≠ '\\') :
    scanQuote ('"' :: t) last = 0 := by
  simp [scanQuote, h]

theorem scanQuote_nomatch (c : Char) (t : List Char) (last : Char)
    (h : ¬(c = '"' ∧ last ≠ '\\')) :
    scanQuote (c :: t) last = scanQuote t c + 1 := by
  simp [scanQuote, h]

/-- The closing-quote scan of `read_value`, run over the writer's escaped
body followed by the closing quote, stops exactly on that closing quote —
provided the payload does not end with a backslash. -/
theorem scanQuote_escape (x : List Char) :
    endsWithBackslash x = false → ∀ (r : List Char) (last : Char), (x = [] → last ≠ '\\') →
      scanQuote (string_serializer.escapeString x ++ '"' :: r) last =
        (string_serializer.escapeString x).length := by
  induction x with
  | nil =>
    intro _ r last hlast
    rw [escapeString_nil, List.nil_append, scanQuote_match r last (hlast rfl)]
    rfl
  | cons c t ih =>
    intro hx r last _hlast
    have ht : endsWithBackslash t = false := by
      cases t with
      | nil => rfl
      | cons d u => rw [endsWithBackslash_cons c (d :: u) (by simp)] at hx; exact hx
    by_cases hc : c = '"'
    · subst hc
      rw [escapeString_cons, escapeChar_quote]
      have h1 : (['\\', '"'] ++ string_serializer.escapeString t) ++ '"' :: r =
          '\\' :: '"' :: (string_serializer.escapeString t ++ '"' :: r) := by simp
      rw [h1, scanQuote_nomatch '\\' _ last (fun h0 => absurd h0.1 (by decide)),
        scanQuote_nomatch '"' _ '\\' (fun h0 => absurd rfl h0.2),
        ih ht r '"' (fun _ => by decide)]
      simp
    · have hcn : t = [] → c ≠ '\\' := by
        intro h0
        subst h0
        simp [endsWithBackslash] at hx
        exact hx
      rw [escapeString_cons, escapeChar_other c hc]
      have h1 : ([c] ++ string_serializer.escapeString t) ++ '"' :: r =
          c :: (string_serializer.escapeString t ++ '"' :: r) := by simp
      rw [h1, scanQuote_nomatch c _ last (fun h0 => absurd h0.1 hc),
        ih ht r c hcn]
      simp

/-! ### Unescaping-pass facts -/

theorem scanUnescOff_match (t : List Char) (last : Char) (h : last = '\\') :
    scanUnescOff ('"' :: t) last = 0 := by
  simp [scanUnescOff, h]

theorem scanUnescOff_nomatch (c : Char) (t : List Char) (last : Char)
    (h : ¬(c = '"' ∧ last = '\\')) :
    scanUnescOff (c :: t) last = scanUnescOff t c + 1 := by
  simp [scanUnescOff, h]

theorem scanUnescOff_no_quote (a : List Char) (h : ∀ c ∈ a, c ≠ '"') :
    ∀ last, scanUnescOff a last = a.length := by
  induction a with
  | nil => intro last; rfl
  | cons c t ih =>
    intro last
    have hc : c ≠ '"' := h c (by simp)
    rw [scanUnescOff_nomatch c t last (fun h0 => absurd h0.1 hc),
      ih (fun x hx => h x (by simp [hx])) c]
    rfl

theorem scanUnescOff_find (a : List Char) (h : ∀ c ∈ a, c ≠ '"') (r : List Char) :
    ∀ last, scanUnescOff (a ++ '\\' :: '"' :: r) last = a.length + 1 := by
  induction a with
  | nil =>
    intro last
    rw [List.nil_append,
      scanUnescOff_nomatch '\\' _ last (fun h0 => absurd h0.1 (by decide)),
      scanUnescOff_match r '\\' rfl]
    rfl
  | cons c t ih =>
    intro last
    have hc : c ≠ '"' := h c (by simp)
    have h2 : (c :: t) ++ '\\' :: '"' :: r = c :: (t ++ '\\' :: '"' :: r) := by simp
    rw [h2, scanUnescOff_nomatch c _ last (fun h0 => absurd h0.1 hc),
      ih (fun x hx => h x (by simp [hx])) c]
    simp

theorem exists_split_quote (x : List Char) :
    (¬ ∀ c ∈ x, c ≠ '"') →
      ∃ a x', x = a ++ '"' :: x' ∧ ∀ c ∈ a, c ≠ '"' := by
  induction x with
  | nil => intro h; exact absurd (by simp) h
  | cons c t ih =>
    intro h
    by_cases hc : c = '"'
    · exact ⟨[], t, by simp [hc], by simp⟩
    · have hq : ¬ ∀ d ∈ t, d ≠ '"' := by
        intro hall
        exact h (by
          intro d hd
          rcases List.mem_cons.mp hd with h1 | h1
          · subst h1; exact hc
          · exact hall d h1)
      rcases ih hq with ⟨a, x', hx, ha⟩
      refine ⟨c :: a, x', by simp [hx], ?_⟩
      intro d hd
      rcases List.mem_cons.mp hd with h1 | h1
      · subst h1; exact hc
      · exact ha d h1

theorem unescape_loop_eq (s : List Char) (sb i : Nat) (last : Char) (tmp : List Char) :
    string_deserializer.unescape_loop s sb i last tmp =
      if i + scanUnescOff (s.drop i) last < s.length then
        string_deserializer.unescape_loop s (i + scanUnescOff (s.drop i) last + 1)
          (i + scanUnescOff (s.drop i) last + 1) '\\'
          (tmp ++ substrOf s sb (i + scanUnescOff (s.drop i) last - 1) ++ ['"'])
      else (sb, tmp) := by
  rw [string_deserializer.unescape_loop]

/-- On the escaped form of a quote-free payload the unescaping loop makes
no iteration. -/
theorem unescape_loop_noop (x s : List Char) (i : Nat) (tmp : List Char) (last : Char)
    (hd : s.drop i = string_serializer.escapeString x) (hq : ∀ c ∈ x, c ≠ '"') :
    string_deserializer.unescape_loop s i i last tmp = (i, tmp) := by
  rw [unescape_loop_eq, hd, escapeString_no_quote x hq, scanUnescOff_no_quote x hq last]
  have hx : s.drop i = x := by rw [hd, escapeString_no_quote x hq]
  have hlen : x.length = s.length - i := by rw [← hx]; simp
  rw [if_neg (by omega)]

/-- One iteration of the unescaping loop across the first escaped quote. -/
theorem unescape_loop_step (a x' s : List Char) (i : Nat) (tmp : List Char) (last : Char)
    (hd : s.drop i = string_serializer.escapeString (a ++ '"' :: x'))
    (ha : ∀ c ∈ a, c ≠ '"') :
    string_deserializer.unescape_loop s i i last tmp =
      string_deserializer.unescape_loop s (i + a.length + 2) (i + a.length + 2) '\\'
        (tmp ++ a ++ ['"']) ∧
    s.drop (i + a.length + 2) = string_serializer.escapeString x' ∧
    i + a.length + 1 < s.length := by
  have hesc : string_serializer.escapeString (a ++ '"' :: x') =
      a ++ '\\' :: '"' :: string_serializer.escapeString x' := by
    rw [escapeString_append, escapeString_cons, escapeChar_quote, escapeString_no_quote a ha]
    simp
  rw [hesc] at hd
  have hscan : scanUnescOff (s.drop i) last = a.length + 1 := by
    rw [hd]; exact scanUnescOff_find a ha (string_serializer.escapeString x') last
  have h5 : (s.drop i).length =
      a.length + 2 + (string_serializer.escapeString x').length := by
    rw [hd]
    simp only [List.length_append, List.length_cons]
    omega
  have h6 : (s.drop i).length = s.length - i := by simp
  have hlt : i + a.length + 1 < s.length := by omega
  refine ⟨?_, ?_, hlt⟩
  · rw [unescape_loop_eq, hscan, if_pos (by omega)]
    have e1 : i + (a.length + 1) + 1 = i + a.length + 2 := by omega
    have e2 : i + (a.length + 1) - 1 = i + a.length := by omega
    rw [e1, e2]
    have e3 : substrOf s i (i + a.length) = a := by
      rw [substrOf]
      have e4 : i + a.length - i = a.length := by omega
      rw [e4, hd]
      exact take_append_len a _
    rw [e3]
  · have hdd : s.drop (i + a.length + 2) = (s.drop i).drop (a.length + 2) := by
      rw [List.drop_drop]
      congr 1
    rw [hdd, hd]
    have h7 := drop_append_len a ('\\' :: '"' :: string_serializer.escapeString x') 2
    simpa using h7

/-- Behaviour of the unescaping loop of `read_value` run over the escaped
form of a payload `x` stored from offset `i` to the end of `s`: with no
quote in `x` the loop does nothing; otherwise the accumulator followed by
the tail slice from the final `sbegin` reconstructs exactly `x`. -/
theorem unescape_loop_spec (n : Nat) :
    ∀ (x s : List Char) (i : Nat) (tmp : List Char) (last : Char),
      x.length ≤ n → s.drop i = string_serializer.escapeString x →
      ((∀ c ∈ x, c ≠ '"') →
        string_deserializer.unescape_loop s i i last tmp = (i, tmp)) ∧
      (¬(∀ c ∈ x, c ≠ '"') →
        (string_deserializer.unescape_loop s i i last tmp).2 ++
            substrOf s (string_deserializer.unescape_loop s i i last tmp).1 s.length =
          tmp ++ x ∧
        i < (string_deserializer.unescape_loop s i i last tmp).1 ∧
        (string_deserializer.unescape_loop s i i last tmp).2 ≠ []) := by
  induction n with
  | zero =>
    intro x s i tmp last hn hd
    have hx0 : x = [] := by
      cases x with
      | nil => rfl
      | cons c t => simp at hn
    subst hx0
    exact ⟨fun hq => unescape_loop_noop [] s i tmp last hd hq,
      fun hq => absurd (by simp) hq⟩
  | succ n ih =>
    intro x s i tmp last hn hd
    by_cases hq : ∀ c ∈ x, c ≠ '"'
    · exact ⟨fun _ => unescape_loop_noop x s i tmp last hd hq, fun h => absurd hq h⟩
    · refine ⟨fun h => absurd h hq, fun _ => ?_⟩
      rcases exists_split_quote x hq with ⟨a, x', hxs, ha⟩
      subst hxs
      obtain ⟨hloop, hd', hlt⟩ := unescape_loop_step a x' s i tmp last hd ha
      have hn' : x'.length ≤ n := by
        simp only [List.length_append, List.length_cons] at hn
        omega
      have IH := ih x' s (i + a.length + 2) (tmp ++ a ++ ['"']) '\\' hn' hd'
      by_cases hq' : ∀ c ∈ x', c ≠ '"'
      · have hr := IH.1 hq'
        rw [hloop, hr]
        refine ⟨?_, by omega, by simp⟩
        simp [substrOf_to_length, hd', escapeString_no_quote x' hq']
      · obtain ⟨heq, hlt2, hne⟩ := IH.2 hq'
        rw [hloop]
        refine ⟨?_, by omega, hne⟩
        rw [heq]
        simp

/-- The unescaping pass of `read_value` inverts the writer's escaping. -/
theorem unescape_escape (x : List Char) :
    string_deserializer.unescape (string_serializer.escapeString x) = x := by
  have h := unescape_loop_spec x.length x (string_serializer.escapeString x) 0 [] ' '
    le_rfl (by simp)
  by_cases hq : ∀ c ∈ x, c ≠ '"'
  · have hx : string_serializer.escapeString x = x := escapeString_no_quote x hq
    have h1 := h.1 hq
    rw [hx] at h1 ⊢
    simp [string_deserializer.unescape, h1]
  · obtain ⟨heq, hlt, hne⟩ := h.2 hq
    rw [List.nil_append] at heq
    have hxne : x ≠ [] := fun h0 => hq (by simp [h0])
    have h2 : ¬((string_deserializer.unescape_loop
        (string_serializer.escapeString x) 0 0 ' ' []).1 = 0) := by omega
    simp only [string_deserializer.unescape]
    rw [if_pos h2, heq, if_neg hxne]

/-! ### Position algebra over appended inputs -/

theorem skip_at_len (a b : List Char) :
    skip_space_and_comma (a ++ b) a.length = a.length + seekSkip b := by
  rw [skip_space_and_comma, drop_len_append]

theorem skip_at_len_add (a b : List Char) (j : Nat) :
    skip_space_and_comma (a ++ b) (a.length + j) =
      a.length + j + seekSkip (b.drop j) := by
  rw [skip_space_and_comma, drop_append_len]

theorem charAt_len_add (a b : List Char) (j : Nat) :
    charAt (a ++ b) (a.length + j) = charAt b j := by
  rw [charAt, drop_append_len, charAt]

theorem charAt_cons (c : Char) (t : List Char) : charAt (c :: t) 0 = c := rfl

/-- Helper record-equality for reader states, to discharge Nat-arithmetic
differences between syntactically different position expressions. -/
theorem DeserState_eq (s1 s2 : List Char) (p1 p2 c1 c2 : Nat) (k1 k2 : List Bool)
    (h1 : s1 = s2) (h2 : p1 = p2) (h3 : c1 = c2) (h4 : k1 = k2) :
    (⟨s1, p1, c1, k1⟩ : string_deserializer.DeserState) = ⟨s2, p2, c2, k2⟩ := by
  rw [h1, h2, h3, h4]

/-! ### Step lemmas for the reader operations -/

theorem seek_object_name (tn r : List Char) (cnt : Nat) (stk : List Bool)
    (h1 : tn ≠ []) (h2 : ∀ c ∈ tn, isDelim c = false)
    (h3 : find_if_idx isDelim r = 0) :
    string_deserializer.seek_object ⟨tn ++ r, 0, cnt, stk⟩ =
      Except.ok (tn, ⟨tn ++ r, tn.length, cnt, stk⟩) := by
  obtain ⟨c, t, rfl⟩ := List.exists_cons_of_ne_nil h1
  have hsep : isSep c = false := isSep_of_isDelim c (h2 c (by simp))
  have hskip : seekSkip ((c :: t) ++ r) = 0 := by
    rw [List.cons_append]
    exact seekSkip_cons_not_sep c (t ++ r) hsep
  have hfind : find_if_idx isDelim ((c :: t) ++ r) = (c :: t).length := by
    rw [find_if_idx_append isDelim (c :: t) r h2, h3]
    omega
  have hsub : substrOf ((c :: t) ++ r) 0 (c :: t).length = c :: t := by
    rw [substrOf]
    simp only [Nat.sub_zero, List.drop_zero]
    exact take_append_len (c :: t) r
  simp only [string_deserializer.seek_object, skip_space_and_comma, List.drop_zero,
    hskip, hfind, Nat.add_zero, Nat.zero_add, hsub]
  rw [if_neg (by simp)]

theorem begin_object_with_paren (uname : List Char)
    (st : string_deserializer.DeserState)
    (h : charAt st.m_str (skip_space_and_comma st.m_str st.m_pos) = '(') :
    string_deserializer.begin_object uname st =
      ⟨st.m_str, skip_space_and_comma st.m_str st.m_pos + 1, st.m_obj_count + 1,
        true :: st.m_stack⟩ := by
  simp only [string_deserializer.begin_object, string_deserializer.try_consume,
    skip_skip, h, if_pos]

theorem begin_object_without_paren (uname : List Char)
    (st : string_deserializer.DeserState)
    (h : ¬ charAt st.m_str (skip_space_and_comma st.m_str st.m_pos) = '(') :
    string_deserializer.begin_object uname st =
      ⟨st.m_str, skip_space_and_comma st.m_str st.m_pos, st.m_obj_count + 1,
        false :: st.m_stack⟩ := by
  simp only [string_deserializer.begin_object, string_deserializer.try_consume,
    skip_skip, h, if_neg, if_false]

theorem read_value_c1 (tn x : List Char) (cnt : Nat) (stk' : List Bool)
    (hx : endsWithBackslash x = false) :
    string_deserializer.read_value primitive_type.pt_u8string
        ⟨tn ++ ' ' :: '(' :: ' ' :: '"' ::
            (string_serializer.escapeString x ++ '"' :: ' ' :: ')' :: []),
          tn.length + 2, cnt, true :: stk'⟩ =
      Except.ok (primitive_variant.pv_u8 x,
        ⟨tn ++ ' ' :: '(' :: ' ' :: '"' ::
            (string_serializer.escapeString x ++ '"' :: ' ' :: ')' :: []),
          tn.length + 5 + (string_serializer.escapeString x).length, cnt,
          true :: stk'⟩) := by
  have hskip : skip_space_and_comma
      (tn ++ ' ' :: '(' :: ' ' :: '"' ::
        (string_serializer.escapeString x ++ '"' :: ' ' :: ')' :: []))
      (tn.length + 2) = tn.length + 3 := by
    rw [skip_at_len_add]
    have h2 : seekSkip ((' ' :: '(' :: ' ' :: '"' ::
        (string_serializer.escapeString x ++ '"' :: ' ' :: ')' :: [])).drop 2) = 1 := rfl
    rw [h2]
  have hch : charAt
      (tn ++ ' ' :: '(' :: ' ' :: '"' ::
        (string_serializer.escapeString x ++ '"' :: ' ' :: ')' :: []))
      (tn.length + 3) = '"' := by
    rw [charAt_len_add]
    rfl
  have hdrop4 : (tn ++ ' ' :: '(' :: ' ' :: '"' ::
        (string_serializer.escapeString x ++ '"' :: ' ' :: ')' :: [])).drop
      (tn.length + 4) = string_serializer.escapeString x ++ '"' :: ' ' :: ')' :: [] := by
    rw [drop_append_len]
    rfl
  have hscan : scanQuote
      ((tn ++ ' ' :: '(' :: ' ' :: '"' ::
        (string_serializer.escapeString x ++ '"' :: ' ' :: ')' :: [])).drop
          (tn.length + 4)) '"' = (string_serializer.escapeString x).length := by
    rw [hdrop4]
    exact scanQuote_escape x hx (' ' :: ')' :: []) '"' (fun _ => by decide)
  have hlen : (tn ++ ' ' :: '(' :: ' ' :: '"' ::
      (string_serializer.escapeString x ++ '"' :: ' ' :: ')' :: [])).length =
      tn.length + ((string_serializer.escapeString x).length + 7) := by
    simp only [List.length_append, List.length_cons, List.length_nil]
  have hsub : substrOf
      (tn ++ ' ' :: '(' :: ' ' :: '"' ::
        (string_serializer.escapeString x ++ '"' :: ' ' :: ')' :: []))
      (tn.length + 4) (tn.length + 4 + (string_serializer.escapeString x).length) =
      string_serializer.escapeString x := by
    rw [substrOf, hdrop4]
    have e : tn.length + 4 + (string_serializer.escapeString x).length -
        (tn.length + 4) = (string_serializer.escapeString x).length := by omega
    rw [e]
    exact take_append_len _ _
  have hchv : charAt
      (tn ++ ' ' :: '(' :: ' ' :: '"' ::
        (string_serializer.escapeString x ++ '"' :: ' ' :: ')' :: []))
      (tn.length + 4 + (string_serializer.escapeString x).length) = '"' := by
    have h6 : (tn ++ ' ' :: '(' :: ' ' :: '"' ::
        (string_serializer.escapeString x ++ '"' :: ' ' :: ')' :: [])).drop
          (tn.length + 4 + (string_serializer.escapeString x).length) =
        ((tn ++ ' ' :: '(' :: ' ' :: '"' ::
          (string_serializer.escapeString x ++ '"' :: ' ' :: ')' :: [])).drop
            (tn.length + 4)).drop (string_serializer.escapeString x).length := by
      rw [List.drop_drop]
    rw [charAt, h6, hdrop4, drop_len_append]
    rfl
  simp only [string_deserializer.read_value, string_deserializer.integrity_check,
    if_true, hskip, hch, hscan]
  have e1 : tn.length + 3 + 1 = tn.length + 4 := by omega
  simp only [e1, and_true, if_pos, reduceIte, hsub, hchv, hlen]
  rw [if_neg (by omega)]
  simp only [string_deserializer.apply_from_string, string_deserializer.default_variant,
    unescape_escape]
  have e2 : tn.length + 4 + (string_serializer.escapeString x).length + 1 =
      tn.length + 5 + (string_serializer.escapeString x).length := by omega
  rw [e2]

theorem end_object_c1 (tn x : List Char) :
    string_deserializer.end_object
        ⟨tn ++ ' ' :: '(' :: ' ' :: '"' ::
            (string_serializer.escapeString x ++ '"' :: ' ' :: ')' :: []),
          tn.length + 5 + (string_serializer.escapeString x).length, 1, [true]⟩ =
      Except.ok ⟨tn ++ ' ' :: '(' :: ' ' :: '"' ::
            (string_serializer.escapeString x ++ '"' :: ' ' :: ')' :: []),
          tn.length + ((string_serializer.escapeString x).length + 7), 0, []⟩ := by
  have h7 : (tn ++ ' ' :: '(' :: ' ' :: '"' ::
      (string_serializer.escapeString x ++ '"' :: ' ' :: ')' :: [])).drop
        (tn.length + 4) = string_serializer.escapeString x ++ '"' :: ' ' :: ')' :: [] := by
    rw [drop_append_len]
    rfl
  have hdropQ : (tn ++ ' ' :: '(' :: ' ' :: '"' ::
      (string_serializer.escapeString x ++ '"' :: ' ' :: ')' :: [])).drop
        (tn.length + 4 + (string_serializer.escapeString x).length) =
      '"' :: ' ' :: ')' :: [] := by
    have h6 : (tn ++ ' ' :: '(' :: ' ' :: '"' ::
        (string_serializer.escapeString x ++ '"' :: ' ' :: ')' :: [])).drop
          (tn.length + 4 + (string_serializer.escapeString x).length) =
        ((tn ++ ' ' :: '(' :: ' ' :: '"' ::
          (string_serializer.escapeString x ++ '"' :: ' ' :: ')' :: [])).drop
            (tn.length + 4)).drop (string_serializer.escapeString x).length := by
      rw [List.drop_drop]
    rw [h6, h7, drop_len_append]
  have hdrop5 : (tn ++ ' ' :: '(' :: ' ' :: '"' ::
      (string_serializer.escapeString x ++ '"' :: ' ' :: ')' :: [])).drop
        (tn.length + 5 + (string_serializer.escapeString x).length) =
      ' ' :: ')' :: [] := by
    have h6 : (tn ++ ' ' :: '(' :: ' ' :: '"' ::
        (string_serializer.escapeString x ++ '"' :: ' ' :: ')' :: [])).drop
          (tn.length + 5 + (string_serializer.escapeString x).length) =
        ((tn ++ ' ' :: '(' :: ' ' :: '"' ::
          (string_serializer.escapeString x ++ '"' :: ' ' :: ')' :: [])).drop
            (tn.length + 4 + (string_serializer.escapeString x).length)).drop 1 := by
      rw [List.drop_drop]
      congr 1
      omega
    rw [h6, hdropQ]
    rfl
  have hskip : skip_space_and_comma
      (tn ++ ' ' :: '(' :: ' ' :: '"' ::
        (string_serializer.escapeString x ++ '"' :: ' ' :: ')' :: []))
      (tn.length + 5 + (string_serializer.escapeString x).length) =
      tn.length + 5 + (string_serializer.escapeString x).length + 1 := by
    rw [skip_space_and_comma, hdrop5]
    rfl
  have hch : charAt
      (tn ++ ' ' :: '(' :: ' ' :: '"' ::
        (string_serializer.escapeString x ++ '"' :: ' ' :: ')' :: []))
      (tn.length + 5 + (string_serializer.escapeString x).length + 1) = ')' := by
    rw [charAt]
    have h6 : (tn ++ ' ' :: '(' :: ' ' :: '"' ::
        (string_serializer.escapeString x ++ '"' :: ' ' :: ')' :: [])).drop
          (tn.length + 5 + (string_serializer.escapeString x).length + 1) =
        ((tn ++ ' ' :: '(' :: ' ' :: '"' ::
          (string_serializer.escapeString x ++ '"' :: ' ' :: ')' :: [])).drop
            (tn.length + 5 + (string_serializer.escapeString x).length)).drop 1 := by
      rw [List.drop_drop]
    rw [h6, hdrop5]
    rfl
  have hlen : (tn ++ ' ' :: '(' :: ' ' :: '"' ::
      (string_serializer.escapeString x ++ '"' :: ' ' :: ')' :: [])).length =
      tn.length + ((string_serializer.escapeString x).length + 7) := by
    simp only [List.length_append, List.length_cons, List.length_nil]
  have hdropEnd : (tn ++ ' ' :: '(' :: ' ' :: '"' ::
      (string_serializer.escapeString x ++ '"' :: ' ' :: ')' :: [])).drop
        (tn.length + 5 + (string_serializer.escapeString x).length + 1 + 1) = [] := by
    apply List.drop_eq_nil_of_le
    rw [hlen]
    omega
  simp only [string_deserializer.end_object, string_deserializer.consume,
    hskip, hch, if_pos]
  simp only [skip_space_and_comma, hdropEnd, seekSkip]
  rw [if_pos (by rw [hlen]; omega)]
  have e2 : tn.length + 5 + (string_serializer.escapeString x).length + 1 + 1 + 0 =
      tn.length + ((string_serializer.escapeString x).length + 7) := by omega
  rw [e2]

/-- Text produced by the writer drive for one string-valued object. -/
theorem render_prim_u8 (tn x : List Char) :
    render_prim tn (primitive_variant.pv_u8 x) =
      tn ++ ' ' :: '(' :: ' ' :: '"' ::
        (string_serializer.escapeString x ++ '"' :: ' ' :: ')' :: []) := by
  simp [render_prim, string_serializer.begin_object, string_serializer.end_object,
    string_serializer.write_value, string_serializer.clear, string_serializer.initSer,
    string_serializer.pt_writer]

theorem peek_object_name (tn r : List Char) (cnt : Nat) (stk : List Bool)
    (h1 : tn ≠ []) (h2 : ∀ c ∈ tn, isDelim c = false)
    (h3 : find_if_idx isDelim r = 0) :
    string_deserializer.peek_object ⟨tn ++ r, 0, cnt, stk⟩ =
      Except.ok (tn, ⟨tn ++ r, 0, cnt, stk⟩) := by
  simp only [string_deserializer.peek_object, seek_object_name tn r cnt stk h1 h2 h3]
  rw [Nat.sub_self]

/-- Full round trip of the writer and reader drives for one string-valued
object whose payload does not end in a backslash. -/
theorem roundtrip_u8 (tn x : List Char) (h1 : tn ≠ [])
    (h2 : ∀ c ∈ tn, isDelim c = false) (hx : endsWithBackslash x = false) :
    parse_prim primitive_type.pt_u8string (render_prim tn (primitive_variant.pv_u8 x)) =
      Except.ok (tn, primitive_variant.pv_u8 x) := by
  rw [render_prim_u8]
  have h3 : find_if_idx isDelim (' ' :: '(' :: ' ' :: '"' ::
      (string_serializer.escapeString x ++ '"' :: ' ' :: ')' :: [])) = 0 := rfl
  have hskip1 : skip_space_and_comma (tn ++ ' ' :: '(' :: ' ' :: '"' ::
      (string_serializer.escapeString x ++ '"' :: ' ' :: ')' :: [])) tn.length =
      tn.length + 1 := by
    rw [skip_at_len]
    rfl
  have hch1 : charAt (tn ++ ' ' :: '(' :: ' ' :: '"' ::
      (string_serializer.escapeString x ++ '"' :: ' ' :: ')' :: []))
      (tn.length + 1) = '(' := by
    rw [charAt_len_add]
    rfl
  have hbeg := begin_object_with_paren tn
    (⟨tn ++ ' ' :: '(' :: ' ' :: '"' ::
        (string_serializer.escapeString x ++ '"' :: ' ' :: ')' :: []),
      tn.length, 0, []⟩ : string_deserializer.DeserState)
    (by rw [hskip1]; exact hch1)
  rw [hskip1] at hbeg
  have e : tn.length + 1 + 1 = tn.length + 2 := by omega
  rw [e, Nat.zero_add] at hbeg
  simp only [parse_prim, string_deserializer.mkDeser,
    peek_object_name tn (' ' :: '(' :: ' ' :: '"' ::
      (string_serializer.escapeString x ++ '"' :: ' ' :: ')' :: [])) 0 [] h1 h2 h3,
    seek_object_name tn (' ' :: '(' :: ' ' :: '"' ::
      (string_serializer.escapeString x ++ '"' :: ' ' :: ')' :: [])) 0 [] h1 h2 h3,
    hbeg, read_value_c1 tn x 1 [] hx, end_object_c1 tn x]

/-! ### Facts for the remaining claims -/

theorem clear_id (st : string_serializer.SerState)
    (ha : st.m_after_value = false) (hj : st.m_obj_just_opened = false) :
    string_serializer.clear st = st := by
  simp [string_serializer.clear, ha, hj]

theorem write_value_flat (v : primitive_variant) (st : string_serializer.SerState)
    (ha : st.m_after_value = false) (hj : st.m_obj_just_opened = false) :
    string_serializer.write_value v st =
      ⟨st.out ++ string_serializer.pt_writer v, st.m_open_objects, true,
        st.m_obj_just_opened⟩ := by
  simp [string_serializer.write_value, clear_id st ha hj]

theorem write_values_fold_after (vs : List primitive_variant) :
    ∀ (st : string_serializer.SerState), st.m_after_value = true →
      st.m_obj_just_opened = false →
      vs.foldl (fun a v => string_serializer.write_value v a) st =
        ⟨st.out ++ (vs.map (fun v => [',', ' '] ++ string_serializer.pt_writer v)).flatten,
          st.m_open_objects, true, false⟩ := by
  induction vs with
  | nil =>
    intro st ha hj
    simp only [List.foldl_nil, List.map_nil, List.flatten_nil, List.append_nil]
    cases st
    simp_all
  | cons v vs ih =>
    intro st ha hj
    have hw : string_serializer.write_value v st =
        ⟨st.out ++ [',', ' '] ++ string_serializer.pt_writer v, st.m_open_objects,
          true, st.m_obj_just_opened⟩ := by
      simp [string_serializer.write_value, string_serializer.clear, ha, hj]
    simp only [List.foldl_cons, hw, hj]
    rw [ih ⟨st.out ++ [',', ' '] ++ string_serializer.pt_writer v, st.m_open_objects,
      true, false⟩ rfl rfl]
    simp

theorem rlist_cons (v : primitive_variant) (vs : List primitive_variant) :
    string_serializer.rlist (v :: vs) =
      string_serializer.pt_writer v ++
        (vs.map (fun w => [',', ' '] ++ string_serializer.pt_writer w)).flatten := by
  induction vs generalizing v with
  | nil => simp [string_serializer.rlist]
  | cons w ws ih =>
    have h1 : string_serializer.rlist (v :: w :: ws) =
        string_serializer.pt_writer v ++ [',', ' '] ++
          string_serializer.rlist (w :: ws) := by
      simp [string_serializer.rlist]
    rw [h1, ih w]
    simp

theorem write_values_fold (vs : List primitive_variant)
    (st : string_serializer.SerState)
    (ha : st.m_after_value = false) (hj : st.m_obj_just_opened = false) :
    vs.foldl (fun a v => string_serializer.write_value v a) st =
      ⟨st.out ++ string_serializer.rlist vs, st.m_open_objects, !vs.isEmpty,
        st.m_obj_just_opened⟩ := by
  cases vs with
  | nil =>
    simp only [List.foldl_nil, string_serializer.rlist, List.append_nil,
      List.isEmpty_nil, Bool.not_true]
    cases st
    simp_all
  | cons v vs =>
    simp only [List.foldl_cons]
    rw [write_value_flat v st ha hj, hj]
    rw [write_values_fold_after vs
      ⟨st.out ++ string_serializer.pt_writer v, st.m_open_objects, true, false⟩ rfl rfl]
    rw [rlist_cons]
    simp

theorem write_tuple_out (vs : List primitive_variant)
    (st : string_serializer.SerState)
    (ha : st.m_after_value = false) (hj : st.m_obj_just_opened = false) :
    (string_serializer.write_tuple vs st).out =
      st.out ++ [' ', '{'] ++ string_serializer.rlist vs ++
        (if vs.isEmpty then ['}'] else [' ', '}']) := by
  simp only [string_serializer.write_tuple, clear_id st ha hj]
  rw [write_values_fold vs ⟨st.out ++ [' ', '{'], st.m_open_objects,
    st.m_after_value, st.m_obj_just_opened⟩ ha hj]
  cases vs with
  | nil => simp [string_serializer.rlist]
  | cons v vs => simp

theorem write_seq_out (vs : List primitive_variant)
    (st : string_serializer.SerState)
    (ha : st.m_after_value = false) (hj : st.m_obj_just_opened = false) :
    (string_serializer.write_seq vs st).out =
      st.out ++ ['{', ' '] ++ string_serializer.rlist vs ++
        (if vs.isEmpty then ['}'] else [' ', '}']) := by
  simp only [string_serializer.write_seq, string_serializer.begin_sequence,
    string_serializer.end_sequence, clear_id st ha hj]
  rw [write_values_fold vs ⟨st.out ++ ['{', ' '], st.m_open_objects,
    st.m_after_value, st.m_obj_just_opened⟩ ha hj]
  cases vs with
  | nil => simp [string_serializer.rlist, ha]
  | cons v vs => simp

/-- Anatomy of a successful `seek_object`: the returned name starts exactly
at the skipped cursor, spans to the next delimiter, and re-seeking from
the start of the name yields the same name and the same final state. -/
theorem seek_again (st : string_deserializer.DeserState) (r : List Char)
    (st2 : string_deserializer.DeserState)
    (h : string_deserializer.seek_object st = Except.ok (r, st2)) :
    string_deserializer.peek_object st =
      Except.ok (r, { st2 with m_pos := st2.m_pos - r.length }) ∧
    string_deserializer.seek_object { st2 with m_pos := st2.m_pos - r.length } =
      Except.ok (r, st2) := by
  refine ⟨by simp [string_deserializer.peek_object, h], ?_⟩
  simp only [string_deserializer.seek_object] at h
  by_cases hpe : skip_space_and_comma st.m_str st.m_pos =
      skip_space_and_comma st.m_str st.m_pos +
        find_if_idx isDelim (st.m_str.drop (skip_space_and_comma st.m_str st.m_pos))
  · rw [if_pos hpe] at h
    cases h
  · rw [if_neg hpe] at h
    have hk : find_if_idx isDelim
        (st.m_str.drop (skip_space_and_comma st.m_str st.m_pos)) ≠ 0 := by
      intro h0
      exact hpe (by omega)
    injection h with h
    injection h with hr hst
    subst hr
    subst hst
    have hkle := find_if_idx_le_length isDelim
      (st.m_str.drop (skip_space_and_comma st.m_str st.m_pos))
    have hrlen : (substrOf st.m_str (skip_space_and_comma st.m_str st.m_pos)
        (skip_space_and_comma st.m_str st.m_pos +
          find_if_idx isDelim
            (st.m_str.drop (skip_space_and_comma st.m_str st.m_pos)))).length =
        find_if_idx isDelim
          (st.m_str.drop (skip_space_and_comma st.m_str st.m_pos)) := by
      rw [substrOf]
      have hdl : (st.m_str.drop (skip_space_and_comma st.m_str st.m_pos)).length =
          st.m_str.length - skip_space_and_comma st.m_str st.m_pos := by simp
      simp only [Nat.add_sub_cancel_left, List.length_take]
      omega
    simp only [hrlen, Nat.add_sub_cancel_right]
    have hskipagain : skip_space_and_comma st.m_str
        (skip_space_and_comma st.m_str st.m_pos) =
        skip_space_and_comma st.m_str st.m_pos := skip_skip st.m_str st.m_pos
    simp only [string_deserializer.seek_object, hskipagain]
    rw [if_neg (by omega)]

/-- Bounds and end-of-input reachability for the dereferences performed by
the loop of `skip_space_and_comma` over the suffix `l` based at `p`:
every read stays within `[p, N]` where `N = p + l.length` is the slot one
past the last input character, and the read at exactly `N` happens
precisely when the whole suffix consists of separators. -/
theorem skipReadsAux_spec (l : List Char) :
    ∀ (p N : Nat), p + l.length = N →
      ((skipReadsAux l p).all (fun q => decide (q ≤ N)) = true) ∧
      (N ∈ skipReadsAux l p ↔ l.all isSep = true) := by
  induction l with
  | nil =>
    intro p N hN
    simp only [List.length_nil, Nat.add_zero] at hN
    subst hN
    simp [skipReadsAux]
  | cons c t ih =>
    intro p N hN
    simp only [List.length_cons] at hN
    cases hc : isSep c with
    | true =>
      obtain ⟨iha, ihm⟩ := ih (p + 1) N (by omega)
      have haux : skipReadsAux (c :: t) p = p :: skipReadsAux t (p + 1) := by
        simp [skipReadsAux, hc]
      rw [haux]
      constructor
      · simp only [List.all_cons, Bool.and_eq_true, decide_eq_true_eq]
        exact ⟨by omega, iha⟩
      · simp only [List.mem_cons, List.all_cons, hc, Bool.true_and]
        constructor
        · intro h0
          rcases h0 with h0 | h0
          · exfalso; omega
          · exact ihm.mp h0
        · intro h0
          exact Or.inr (ihm.mpr h0)
    | false =>
      have haux : skipReadsAux (c :: t) p = [p] := by
        simp [skipReadsAux, hc]
      rw [haux]
      constructor
      · simp only [List.all_cons, List.all_nil, Bool.and_true, decide_eq_true_eq]
        omega
      · simp only [List.mem_singleton, List.all_cons, hc, Bool.false_and]
        constructor
        · intro h0; exfalso; omega
        · intro h0; cases h0

theorem apply_from_string_default (pt : primitive_type)
    (hpt : pt ≠ primitive_type.pt_u8string) (sub : List Char) :
    string_deserializer.apply_from_string sub (string_deserializer.default_variant pt) =
      string_deserializer.default_variant pt := by
  cases pt with
  | pt_u8string => exact absurd rfl hpt
  | pt_u16string => rfl
  | pt_u32string => rfl

/-- For a non-`u8string` tag, `read_value` either fails or returns the
default-constructed variant for that tag — the extracted token text never
reaches the result. -/
theorem read_value_wide_shape (pt : primitive_type)
    (hpt : pt ≠ primitive_type.pt_u8string) (st : string_deserializer.DeserState) :
    (∃ e, string_deserializer.read_value pt st = Except.error e) ∨
    (∃ st2, string_deserializer.read_value pt st =
      Except.ok (string_deserializer.default_variant pt, st2)) := by
  have hcond2 : (pt = primitive_type.pt_u8string) = False := eq_false hpt
  cases hi : string_deserializer.integrity_check st with
  | error e => exact Or.inl ⟨e, by simp only [string_deserializer.read_value, hi]⟩
  | ok u =>
    by_cases hv : skip_space_and_comma st.m_str st.m_pos +
        find_if_idx isValueDelim (st.m_str.drop (skip_space_and_comma st.m_str st.m_pos)) =
        st.m_str.length
    · refine Or.inl ⟨ParseErr.unterminated_value, ?_⟩
      simp only [string_deserializer.read_value, hi, hcond2, false_and, if_false]
      rw [if_pos hv]
    · refine Or.inr
        ⟨⟨st.m_str, skip_space_and_comma st.m_str st.m_pos + find_if_idx isValueDelim
            (st.m_str.drop (skip_space_and_comma st.m_str st.m_pos)),
          st.m_obj_count, st.m_stack⟩, ?_⟩
      simp only [string_deserializer.read_value, hi, hcond2, false_and, if_false]
      rw [if_neg hv, apply_from_string_default pt hpt]

/-! ### Claim theorems -/

/-- C1 (amended): for every string primitive value `x` that does not end
in a backslash — including the empty string and strings with embedded
double quotes, which the writer escapes as backslash-quote and the reader
unescapes — driving `parse` over the output of `render` reconstructs a
value equal to `x` together with the object's type name.  (The claim's
unrestricted form fails: a payload whose last character is a backslash
makes the reader's closing-quote scan treat the closing quote as escaped,
see the counterexample.) -/
theorem C1_string_roundtrip (tn x : List Char) (h1 : tn ≠ [])
    (h2 : tn.all (fun c => !(isDelim c)) = true)
    (hx : endsWithBackslash x = false) :
    parse_prim primitive_type.pt_u8string
        (render_prim tn (primitive_variant.pv_u8 x)) =
      Except.ok (tn, primitive_variant.pv_u8 x) :=
  roundtrip_u8 tn x h1
    (fun c hc => by
      have h3 := List.all_eq_true.mp h2 c hc
      simpa using h3)
    hx

/-- C1 witness: the canonical stress case `he said "hi"` round-trips. -/
theorem C1_string_roundtrip_witness :
    ("@str".data ≠ [] ∧ "@str".data.all (fun c => !(isDelim c)) = true ∧
      endsWithBackslash "he said \"hi\"".data = false) ∧
    parse_prim primitive_type.pt_u8string
        (render_prim "@str".data (primitive_variant.pv_u8 "he said \"hi\"".data)) =
      Except.ok ("@str".data, primitive_variant.pv_u8 "he said \"hi\"".data) :=
  ⟨⟨by decide, by decide, by decide⟩,
    C1_string_roundtrip "@str".data "he said \"hi\"".data
      (by decide) (by decide) (by decide)⟩

/-- C1 counterexample: the one-character payload `\` renders to `@str ( "\" )`,
on which the reader's closing-quote scan treats the final quote as escaped
and runs off the end of the input, so `parse(render(x))` raises an
unterminated-value error instead of reconstructing `x`. -/
theorem C1_backslash_counterexample :
    parse_prim primitive_type.pt_u8string
        (render_prim "@str".data (primitive_variant.pv_u8 "\\".data)) =
      Except.error ParseErr.unterminated_value ∧
    parse_prim primitive_type.pt_u8string
        (render_prim "@str".data (primitive_variant.pv_u8 "\\".data)) ≠
      Except.ok ("@str".data, primitive_variant.pv_u8 "\\".data) := by
  have h : parse_prim primitive_type.pt_u8string
      (render_prim "@str".data (primitive_variant.pv_u8 "\\".data)) =
      Except.error ParseErr.unterminated_value := rfl
  exact ⟨h, by rw [h]; exact fun h2 => Except.noConfusion h2⟩

/-- C2: an object with zero fields is written as exactly its bare type
name, with no parenthesis pair, after the context's separator; and the
reader's `begin_object` on input whose next non-separator character is not
`(` records the absence of the parenthesis on the stack, after which
`end_object` consumes no `)` (here inside an enclosing object, so the
trailing-input check does not run). -/
theorem C2_void_object (tn : List Char) (ws : string_serializer.SerState)
    (st : string_deserializer.DeserState)
    (hnp : ¬ charAt st.m_str (skip_space_and_comma st.m_str st.m_pos) = '(')
    (hc : 1 ≤ st.m_obj_count) :
    (string_serializer.end_object (string_serializer.begin_object tn ws)).out =
      (string_serializer.clear ws).out ++ tn ∧
    string_deserializer.begin_object tn st =
      ⟨st.m_str, skip_space_and_comma st.m_str st.m_pos, st.m_obj_count + 1,
        false :: st.m_stack⟩ ∧
    string_deserializer.end_object
        ⟨st.m_str, skip_space_and_comma st.m_str st.m_pos, st.m_obj_count + 1,
          false :: st.m_stack⟩ =
      Except.ok ⟨st.m_str, skip_space_and_comma st.m_str st.m_pos,
        st.m_obj_count, st.m_stack⟩ := by
  refine ⟨?_, begin_object_without_paren tn st hnp, ?_⟩
  · simp [string_serializer.begin_object, string_serializer.end_object]
  · simp only [string_deserializer.end_object, Bool.false_eq_true, if_false]
    rw [if_neg (show ¬(st.m_obj_count + 1 = 1) by omega)]
    simp

/-- C2 witness at a concrete nested-reader state and a fresh writer. -/
theorem C2_void_object_witness :
    ((¬ charAt "a".data (skip_space_and_comma "a".data 0) = '(') ∧
      1 ≤ (1 : Nat)) ∧
    ((string_serializer.end_object
        (string_serializer.begin_object "T".data string_serializer.initSer)).out =
      (string_serializer.clear string_serializer.initSer).out ++ "T".data ∧
    string_deserializer.begin_object "T".data ⟨"a".data, 0, 1, [true]⟩ =
      ⟨"a".data, skip_space_and_comma "a".data 0, 1 + 1, false :: [true]⟩ ∧
    string_deserializer.end_object
        ⟨"a".data, skip_space_and_comma "a".data 0, 1 + 1, false :: [true]⟩ =
      Except.ok ⟨"a".data, skip_space_and_comma "a".data 0, 1, [true]⟩) :=
  ⟨⟨by decide, by decide⟩,
    C2_void_object "T".data string_serializer.initSer ⟨"a".data, 0, 1, [true]⟩
      (by decide) (by decide)⟩

/-- C3: inside an open object with fields (stack top records a
parenthesis), when the next non-separator character is `{`,
`begin_sequence` consumes the `{` and returns one plus the number of
commas strictly before the first `}` the forward scan finds (the closing
brace of the grammar's flat sequences); in particular `{ 1, 2, 3 }` yields
3 and the empty body `{ }` yields 1. -/
theorem C3_begin_sequence_count (st : string_deserializer.DeserState)
    (hstk : st.m_stack.head? = some true)
    (hch : charAt st.m_str (skip_space_and_comma st.m_str st.m_pos) = '{') :
    string_deserializer.begin_sequence st =
      Except.ok
        (((st.m_str.drop (skip_space_and_comma st.m_str st.m_pos + 1)).takeWhile
            (fun c => !(c == '}'))).count ',' + 1,
          { st with m_pos := skip_space_and_comma st.m_str st.m_pos + 1 }) ∧
    string_deserializer.begin_sequence ⟨"T ( { 1, 2, 3 } )".data, 3, 1, [true]⟩ =
      Except.ok (3, ⟨"T ( { 1, 2, 3 } )".data, 5, 1, [true]⟩) ∧
    string_deserializer.begin_sequence ⟨"T ( { } )".data, 3, 1, [true]⟩ =
      Except.ok (1, ⟨"T ( { } )".data, 5, 1, [true]⟩) := by
  refine ⟨?_, rfl, rfl⟩
  have hint : string_deserializer.integrity_check st = Except.ok () := by
    cases hs : st.m_stack with
    | nil => rw [hs] at hstk; cases hstk
    | cons b rest =>
      rw [hs] at hstk
      simp only [List.head?_cons, Option.some.injEq] at hstk
      simp [string_deserializer.integrity_check, hs, hstk]
  have hcons : string_deserializer.consume '{' st =
      Except.ok { st with m_pos := skip_space_and_comma st.m_str st.m_pos + 1 } := by
    simp [string_deserializer.consume, hch]
  simp only [string_deserializer.begin_sequence, hint, hcons]
  have hsubst : substrOf st.m_str (skip_space_and_comma st.m_str st.m_pos + 1)
      (skip_space_and_comma st.m_str st.m_pos + 1 +
        find_if_idx (fun c => c == '}')
          (st.m_str.drop (skip_space_and_comma st.m_str st.m_pos + 1))) =
      (st.m_str.drop (skip_space_and_comma st.m_str st.m_pos + 1)).takeWhile
        (fun c => !(c == '}')) := by
    rw [substrOf, Nat.add_sub_cancel_left, take_find_if_idx]
  simp only [hsubst]

/-- C3 witness. -/
theorem C3_begin_sequence_count_witness :
    ((⟨"T ( { 1, 2, 3 } )".data, 3, 1, [true]⟩ :
        string_deserializer.DeserState).m_stack.head? = some true ∧
      charAt "T ( { 1, 2, 3 } )".data
        (skip_space_and_comma "T ( { 1, 2, 3 } )".data 3) = '{') ∧
    (string_deserializer.begin_sequence ⟨"T ( { 1, 2, 3 } )".data, 3, 1, [true]⟩ =
      Except.ok
        ((("T ( { 1, 2, 3 } )".data.drop
            (skip_space_and_comma "T ( { 1, 2, 3 } )".data 3 + 1)).takeWhile
              (fun c => !(c == '}'))).count ',' + 1,
          ⟨"T ( { 1, 2, 3 } )".data,
            skip_space_and_comma "T ( { 1, 2, 3 } )".data 3 + 1, 1, [true]⟩) ∧
    string_deserializer.begin_sequence ⟨"T ( { 1, 2, 3 } )".data, 3, 1, [true]⟩ =
      Except.ok (3, ⟨"T ( { 1, 2, 3 } )".data, 5, 1, [true]⟩) ∧
    string_deserializer.begin_sequence ⟨"T ( { } )".data, 3, 1, [true]⟩ =
      Except.ok (1, ⟨"T ( { } )".data, 5, 1, [true]⟩)) :=
  ⟨⟨by decide, by decide⟩,
    C3_begin_sequence_count ⟨"T ( { 1, 2, 3 } )".data, 3, 1, [true]⟩
      (by decide) (by decide)⟩

/-- C4: when `end_object` pops the last open object (counter 1, here a
void object so no `)` is pending), it succeeds exactly when everything
from the cursor to the end of the input is spaces and commas, consuming
them; any other remaining character raises the trailing-garbage
malformed-input error. -/
theorem C4_trailing_garbage (st : string_deserializer.DeserState)
    (hstk : st.m_stack = [false]) (hc : st.m_obj_count = 1)
    (hp : st.m_pos ≤ st.m_str.length) :
    string_deserializer.end_object st =
      (if (st.m_str.drop st.m_pos).all isSep = true then
        Except.ok ⟨st.m_str, st.m_str.length, 0, []⟩
      else Except.error ParseErr.expected_end_of_string) ∧
    string_deserializer.end_object ⟨"T x".data, 1, 1, [false]⟩ =
      Except.error ParseErr.expected_end_of_string := by
  refine ⟨?_, rfl⟩
  have hdl : (st.m_str.drop st.m_pos).length = st.m_str.length - st.m_pos := by simp
  by_cases hall : (st.m_str.drop st.m_pos).all isSep = true
  · have hs : seekSkip (st.m_str.drop st.m_pos) = (st.m_str.drop st.m_pos).length :=
      (seekSkip_eq_length_iff _).mpr hall
    rw [if_pos hall]
    simp only [string_deserializer.end_object, hstk, Bool.false_eq_true, if_false, hc,
      skip_space_and_comma, hs, if_true]
    rw [if_pos (show st.m_pos + (st.m_str.drop st.m_pos).length = st.m_str.length
      by omega)]
    have he : st.m_pos + (st.m_str.drop st.m_pos).length = st.m_str.length := by omega
    rw [he]
  · have hs : seekSkip (st.m_str.drop st.m_pos) ≠ (st.m_str.drop st.m_pos).length :=
      fun h0 => hall ((seekSkip_eq_length_iff _).mp h0)
    have hsle := seekSkip_le_length (st.m_str.drop st.m_pos)
    rw [if_neg hall]
    simp only [string_deserializer.end_object, hstk, Bool.false_eq_true, if_false, hc,
      skip_space_and_comma, if_true]
    rw [if_neg (show ¬(st.m_pos + seekSkip (st.m_str.drop st.m_pos) = st.m_str.length)
      by omega)]

/-- C4 witness: consuming trailing separators up to exact end of input. -/
theorem C4_trailing_garbage_witness :
    ((⟨"T ,, ".data, 1, 1, [false]⟩ :
        string_deserializer.DeserState).m_stack = [false] ∧
      (⟨"T ,, ".data, 1, 1, [false]⟩ :
        string_deserializer.DeserState).m_obj_count = 1 ∧
      1 ≤ ("T ,, ".data).length) ∧
    (string_deserializer.end_object ⟨"T ,, ".data, 1, 1, [false]⟩ =
      (if (("T ,, ".data).drop 1).all isSep = true then
        Except.ok ⟨"T ,, ".data, ("T ,, ".data).length, 0, []⟩
      else Except.error ParseErr.expected_end_of_string) ∧
    string_deserializer.end_object ⟨"T x".data, 1, 1, [false]⟩ =
      Except.error ParseErr.expected_end_of_string) :=
  ⟨⟨by decide, by decide, by decide⟩,
    C4_trailing_garbage ⟨"T ,, ".data, 1, 1, [false]⟩ rfl rfl (by decide)⟩

/-- C5: `peek_object` does not consume the object name — it returns the
cursor to the start of the name — so an immediate `seek_object` after it
returns the same type name again and ends in exactly the state a single
`seek_object` would have produced. -/
theorem C5_peek_then_seek (st : string_deserializer.DeserState) (r : List Char)
    (st2 : string_deserializer.DeserState)
    (h : string_deserializer.seek_object st = Except.ok (r, st2)) :
    string_deserializer.peek_object st =
      Except.ok (r, { st2 with m_pos := st2.m_pos - r.length }) ∧
    string_deserializer.seek_object { st2 with m_pos := st2.m_pos - r.length } =
      Except.ok (r, st2) :=
  seek_again st r st2 h

/-- C5 witness, with leading separators before the name. -/
theorem C5_peek_then_seek_witness :
    string_deserializer.seek_object ⟨" foo (".data, 0, 0, []⟩ =
      Except.ok ("foo".data, ⟨" foo (".data, 4, 0, []⟩) ∧
    (string_deserializer.peek_object ⟨" foo (".data, 0, 0, []⟩ =
      Except.ok ("foo".data, ⟨" foo (".data, 4 - ("foo".data).length, 0, []⟩) ∧
    string_deserializer.seek_object ⟨" foo (".data, 4 - ("foo".data).length, 0, []⟩ =
      Except.ok ("foo".data, ⟨" foo (".data, 4, 0, []⟩)) :=
  ⟨rfl, C5_peek_then_seek ⟨" foo (".data, 0, 0, []⟩ "foo".data
    ⟨" foo (".data, 4, 0, []⟩ rfl⟩

/-- C6: a string-tagged `read_value` whose next non-separator character is
not a double quote scans the unquoted token `abc`, but then the
trailing-quote check — which the source runs whenever the tag is the
string tag, even though no opening quote was seen — finds the delimiter
(here a space) instead of `"` and raises a malformed-input error; the
extracted substring is discarded rather than returned verbatim. -/
theorem C6_unquoted_string_rejected :
    string_deserializer.read_value primitive_type.pt_u8string
        ⟨"T ( abc )".data, 4, 1, [true]⟩ =
      Except.error (ParseErr.string_expected_quote ' ') := rfl

/-- C7 counterexample: from a fresh writer, `write_tuple` of one string
value emits ` {"a" }` while `begin_sequence`/`write_value`/`end_sequence`
emits `{ "a" }` — both `{...}`-bracketed comma lists, but not the same
character output as the claim states. -/
theorem C7_bracket_counterexample :
    (string_serializer.write_tuple [primitive_variant.pv_u8 ['a']]
        string_serializer.initSer).out = [' ', '{', '"', 'a', '"', ' ', '}'] ∧
    (string_serializer.write_seq [primitive_variant.pv_u8 ['a']]
        string_serializer.initSer).out = ['{', ' ', '"', 'a', '"', ' ', '}'] ∧
    (string_serializer.write_tuple [primitive_variant.pv_u8 ['a']]
        string_serializer.initSer).out ≠
      (string_serializer.write_seq [primitive_variant.pv_u8 ['a']]
        string_serializer.initSer).out :=
  ⟨by decide, by decide, by decide⟩

/-- C7 (amended): from a writer state with no pending separator,
`write_tuple` and the `begin_sequence`/`write_value`*/`end_sequence`
route produce the same comma-separated body and the same closing bracket,
and differ only in the opening bracket's spacing: `write_tuple` emits
`" {"` where the sequence route emits `"{ "` — so the two outputs are
equivalent `{...}` bracketed lists but not character-identical. -/
theorem C7_tuple_vs_sequence (vs : List primitive_variant)
    (st : string_serializer.SerState)
    (ha : st.m_after_value = false) (hj : st.m_obj_just_opened = false) :
    (string_serializer.write_tuple vs st).out =
      st.out ++ [' ', '{'] ++ string_serializer.rlist vs ++
        (if vs.isEmpty then ['}'] else [' ', '}']) ∧
    (string_serializer.write_seq vs st).out =
      st.out ++ ['{', ' '] ++ string_serializer.rlist vs ++
        (if vs.isEmpty then ['}'] else [' ', '}']) :=
  ⟨write_tuple_out vs st ha hj, write_seq_out vs st ha hj⟩

/-- C7 witness. -/
theorem C7_tuple_vs_sequence_witness :
    (string_serializer.initSer.m_after_value = false ∧
      string_serializer.initSer.m_obj_just_opened = false) ∧
    ((string_serializer.write_tuple [primitive_variant.pv_u8 ['a']]
        string_serializer.initSer).out =
      string_serializer.initSer.out ++ [' ', '{'] ++
        string_serializer.rlist [primitive_variant.pv_u8 ['a']] ++
        (if ([primitive_variant.pv_u8 ['a']] : List primitive_variant).isEmpty
          then ['}'] else [' ', '}']) ∧
    (string_serializer.write_seq [primitive_variant.pv_u8 ['a']]
        string_serializer.initSer).out =
      string_serializer.initSer.out ++ ['{', ' '] ++
        string_serializer.rlist [primitive_variant.pv_u8 ['a']] ++
        (if ([primitive_variant.pv_u8 ['a']] : List primitive_variant).isEmpty
          then ['}'] else [' ', '}'])) :=
  ⟨⟨rfl, rfl⟩,
    C7_tuple_vs_sequence [primitive_variant.pv_u8 ['a']] string_serializer.initSer
      rfl rfl⟩

/-- C8 counterexample: on a fresh serializer, with no object scope ever
opened, `end_object` raises nothing and emits `)` — it returns normally
with the parenthesis appended to the output, refuting the claim that the
call fails instead of emitting output. -/
theorem C8_no_scope_counterexample :
    string_serializer.end_object string_serializer.initSer =
      ⟨")".data, 0, true, false⟩ := by decide

/-- C8 (amended): the serializer's `end_object` performs no open-scope
check at all — `m_open_objects` is incremented by `begin_object` but
never read — so calling it with zero open objects (hence no pending
just-opened object) does not fail: it unconditionally emits `)` (with a
leading space after a value) and marks a value as closed. -/
theorem C8_no_scope_emits (st : string_serializer.SerState)
    (hc : st.m_open_objects = 0) (hj : st.m_obj_just_opened = false) :
    string_serializer.end_object st =
      { st with
        out := st.out ++ (if st.m_after_value then [' ', ')'] else [')'])
        m_after_value := true } := by
  simp [string_serializer.end_object, hj]

/-- C8 witness. -/
theorem C8_no_scope_emits_witness :
    ((⟨[], 0, true, false⟩ : string_serializer.SerState).m_open_objects = 0 ∧
      (⟨[], 0, true, false⟩ : string_serializer.SerState).m_obj_just_opened = false) ∧
    string_serializer.end_object ⟨[], 0, true, false⟩ =
      ⟨[' ', ')'], 0, true, false⟩ :=
  ⟨⟨rfl, rfl⟩, C8_no_scope_emits ⟨[], 0, true, false⟩ rfl rfl⟩

/-- C9 counterexample: the claim's own named scenario — `end_object`
closing the outermost object at exact end of input (void object `foo`) —
does perform a read at position 3, which is the input's length and hence
not strictly inside the input: in the C++ code this is the dereference of
the end iterator by `skip_space_and_comma`, reaching the slot the claim
says is unreachable. -/
theorem C9_end_of_input_read_counterexample :
    string_deserializer.seek_object ⟨"foo".data, 0, 0, []⟩ =
      Except.ok ("foo".data, ⟨"foo".data, 3, 0, []⟩) ∧
    string_deserializer.begin_object "foo".data ⟨"foo".data, 3, 0, []⟩ =
      ⟨"foo".data, 3, 1, [false]⟩ ∧
    string_deserializer.end_object ⟨"foo".data, 3, 1, [false]⟩ =
      Except.ok ⟨"foo".data, 3, 0, []⟩ ∧
    skipReadPositions "foo".data 3 = [3] ∧
    ¬(3 < ("foo".data).length) :=
  ⟨rfl, rfl, rfl, rfl, by decide⟩

/-- C9 (amended): every dereference performed by the separator-skipping
loop stays within the null-terminated buffer — at most the input length —
but the read at exactly the input length (the null-terminator slot, the
end-iterator dereference in the C++ code) is reachable: it happens
precisely when every character from the cursor onward is a space or
comma, in particular in `end_object`'s trailing check at exact end of
input. -/
theorem C9_reads_bounded (s : List Char) (p : Nat) (hp : p ≤ s.length) :
    ((skipReadPositions s p).all (fun q => decide (q ≤ s.length)) = true) ∧
    (s.length ∈ skipReadPositions s p ↔ (s.drop p).all isSep = true) :=
  skipReadsAux_spec (s.drop p) p s.length
    (by
      have hdl : (s.drop p).length = s.length - p := by simp
      omega)

/-- C9 witness. -/
theorem C9_reads_bounded_witness :
    (1 ≤ ("a, ".data).length) ∧
    (((skipReadPositions "a, ".data 1).all
        (fun q => decide (q ≤ ("a, ".data).length)) = true) ∧
      (("a, ".data).length ∈ skipReadPositions "a, ".data 1 ↔
        (("a, ".data).drop 1).all isSep = true)) :=
  ⟨by decide, C9_reads_bounded "a, ".data 1 (by decide)⟩

/-- C10: whenever a `read_value` call with the UTF-16 or UTF-32 string
tag succeeds, the returned primitive is the default-constructed variant
with an empty payload, whatever the input token said — the scanned text
is discarded, mirroring the writer, whose `pt_writer` emits nothing for
these tags; the concrete run shows the token `hello` being consumed
(cursor 3 to 9) while the payload stays empty. -/
theorem C10_wide_strings_discarded (st st' : string_deserializer.DeserState)
    (v w : primitive_variant) (st2 st3 : string_deserializer.DeserState)
    (y : List Char)
    (h16 : string_deserializer.read_value primitive_type.pt_u16string st =
      Except.ok (v, st2))
    (h32 : string_deserializer.read_value primitive_type.pt_u32string st' =
      Except.ok (w, st3)) :
    v = primitive_variant.pv_u16 [] ∧ w = primitive_variant.pv_u32 [] ∧
    (string_serializer.pt_writer (primitive_variant.pv_u16 y) = [] ∧
      string_serializer.pt_writer (primitive_variant.pv_u32 y) = []) ∧
    string_deserializer.read_value primitive_type.pt_u16string
        ⟨"T ( hello )".data, 3, 1, [true]⟩ =
      Except.ok (primitive_variant.pv_u16 [], ⟨"T ( hello )".data, 9, 1, [true]⟩) := by
  refine ⟨?_, ?_, ⟨rfl, rfl⟩, rfl⟩
  · rcases read_value_wide_shape primitive_type.pt_u16string (by decide) st with
      ⟨e, he⟩ | ⟨stx, hx⟩
    · rw [he] at h16; cases h16
    · rw [hx] at h16
      injection h16 with h16
      injection h16 with hv hst
      exact hv.symm
  · rcases read_value_wide_shape primitive_type.pt_u32string (by decide) st' with
      ⟨e, he⟩ | ⟨stx, hx⟩
    · rw [he] at h32; cases h32
    · rw [hx] at h32
      injection h32 with h32
      injection h32 with hv hst
      exact hv.symm

/-- C10 witness. -/
theorem C10_wide_strings_discarded_witness :
    (string_deserializer.read_value primitive_type.pt_u16string
        ⟨"T ( hello )".data, 3, 1, [true]⟩ =
      Except.ok (primitive_variant.pv_u16 [], ⟨"T ( hello )".data, 9, 1, [true]⟩) ∧
    string_deserializer.read_value primitive_type.pt_u32string
        ⟨"T ( hello )".data, 3, 1, [true]⟩ =
      Except.ok (primitive_variant.pv_u32 [], ⟨"T ( hello )".data, 9, 1, [true]⟩)) ∧
    (primitive_variant.pv_u16 [] = primitive_variant.pv_u16 [] ∧
      primitive_variant.pv_u32 [] = primitive_variant.pv_u32 [] ∧
      (string_serializer.pt_writer (primitive_variant.pv_u16 "hello".data) = [] ∧
        string_serializer.pt_writer (primitive_variant.pv_u32 "hello".data) = []) ∧
      string_deserializer.read_value primitive_type.pt_u16string
          ⟨"T ( hello )".data, 3, 1, [true]⟩ =
        Except.ok (primitive_variant.pv_u16 [],
          ⟨"T ( hello )".data, 9, 1, [true]⟩)) :=
  ⟨⟨rfl, rfl⟩,
    C10_wide_strings_discarded ⟨"T ( hello )".data, 3, 1, [true]⟩
      ⟨"T ( hello )".data, 3, 1, [true]⟩
      (primitive_variant.pv_u16 []) (primitive_variant.pv_u32 [])
      ⟨"T ( hello )".data, 9, 1, [true]⟩ ⟨"T ( hello )".data, 9, 1, [true]⟩
      "hello".data rfl rfl⟩
